import Mathlib

/-!
Shallow embedding of the Project+/REX updater (`src/main.py`).

This file embeds, in Lean, the download/extract/version-bookkeeping logic of
the updater: Python string helpers, the asset classifier of
`_fetch_remote_version_worker`, the chunked downloader `_download_asset`, the
installed-state reader `check_local_versions` / `update_ui_for_mode`, the
installer `_download_and_extract` with its two extraction strategies
`_extract_project_plus` and `_extract_rex`, the HD-texture extraction loop of
`_hd_texture_worker`, the removal operation `remove_installation`, and the
button-enabling state machine around `start_download` / `switch_game_mode`.

Machine integers do not overflow in any of this logic, so sizes are `Nat`,
progress values are `ℤ`, and wall-clock times are `ℚ`.  Filesystem and
network effects are made explicit: operations take and return a state record,
failures are surfaced as an explicit error component, and the Qt signal
emissions that matter (progress-bar values, speed-label updates) are recorded
as event lists.
-/

namespace PPlusUpdater

/-! ## Python string primitives -/

/-- The whitespace set stripped by Python `str.strip()`. -/
def pyIsSpace (c : Char) : Bool :=
  c = ' ' || c = '\t' || c = '\n' || c = '\x0d' || c = '\x0b' || c = '\x0c'

/-- Python `s.strip()`: drop leading and trailing whitespace. -/
def pyStrip (s : String) : String :=
  ⟨((s.data.dropWhile pyIsSpace).reverse.dropWhile pyIsSpace).reverse⟩

/-- Helper for the Python `in` substring test: does `pat` occur as a
contiguous sublist starting at some position of the given list? -/
def hasInfixFrom (pat : List Char) : List Char → Bool
  | [] => pat.isEmpty
  | c :: t => pat.isPrefixOf (c :: t) || hasInfixFrom pat t

/-- Python `pat in s` (substring containment). -/
def strContains (s pat : String) : Bool :=
  hasInfixFrom pat.data s.data

/-- Python `s.endswith(suf)`. -/
def strEndsWith (s suf : String) : Bool :=
  suf.data.isSuffixOf s.data

/-! ## Release assets and the classifier (`_fetch_remote_version_worker`) -/

/-- One entry of the GitHub release `assets` array, restricted to the two
fields the program reads (`name` and `size`; the download URL is opaque). -/
structure Asset where
  name : String
  size : Nat
deriving DecidableEq

/-- The semantic role the worker assigns to an asset. -/
inductive Role where
  | primary_archive
  | split_part
  | texture_pack
  | unclassified
deriving DecidableEq

/-- Project+ branch of the classifier (main.py lines 252-257): suffix
`.AppImage.zip` marks the primary archive, suffix `.HD.Textures.zip` the
texture pack, in that `if`/`elif` order. -/
def classifyPPlus (a : Asset) : Role :=
  if strEndsWith a.name ".AppImage.zip" then .primary_archive
  else if strEndsWith a.name ".HD.Textures.zip" then .texture_pack
  else .unclassified

/-- REX split-part test (line 266): `".zip." in a['name']`. -/
def rexIsSplitPart (a : Asset) : Bool := strContains a.name ".zip."

/-- REX texture-pack test (line 271): exact name `rex-hd-textures.zip`. -/
def rexIsTexturePack (a : Asset) : Bool := decide (a.name = "rex-hd-textures.zip")

/-- REX branch of the classifier, as a single role function: the parts
comprehension (line 266) and the texture-pack scan (lines 270-273) are
independent name tests, shown disjoint below, so each asset gets one role. -/
def classifyRex (a : Asset) : Role :=
  if rexIsSplitPart a then .split_part
  else if rexIsTexturePack a then .texture_pack
  else .unclassified

/-- Lexicographic comparison of character lists by code point, the order
Python uses to compare `str` values. -/
def charListLe : List Char → List Char → Bool
  | [], _ => true
  | _ :: _, [] => false
  | a :: as, b :: bs => if a = b then charListLe as bs else decide (a < b)

/-- Boolean lexical order on asset names, the key of line 267's
`sorted(rex_parts, key=lambda x: x['name'])`. -/
def nameLe (a b : Asset) : Bool := charListLe a.name.data b.name.data

/-- Line 266-267: filter the split parts out of the asset list and sort them
ascending by name.  Python `sorted` is a stable sort; `insertionSort` is also
stable, and any two stable sorts of a total preorder agree, so this is the
same list Python produces. -/
def rexParts (assets : List Asset) : List Asset :=
  (assets.filter rexIsSplitPart).insertionSort fun a b => nameLe a b = true

/-! ## The chunked downloader (`_download_asset`, lines 311-335)

The loop body is modelled as a fold over the received chunks.  Each chunk
carries its byte count and the wall-clock time (`time.time()`, modelled as a
rational) at which it is processed.  The two Qt notifications the loop can
emit — `progress_bar.setValue` and `speed_label.setText` — are recorded as
events tagged with the emission time. -/

/-- Wall-clock instants (`time.time()` values) are measured in integer
microseconds; the code's constant `0.5` seconds is this many microseconds. -/
def usHalfSecond : ℤ := 500000

/-- One chunk yielded by `r.iter_content(chunk_size=8192)`, together with the
wall-clock instant (microseconds) at which the loop body handles it. -/
structure Chunk where
  size : Nat
  time : ℤ
deriving DecidableEq

/-- A notification emitted from inside the download loop, tagged with its
emission time. -/
inductive DlEvent where
  | progressValue (t : ℤ) (v : ℤ)
  | speedText (t : ℤ)
deriving DecidableEq

/-- Loop state of `_download_asset`: bytes written so far and
`last_update_time`. -/
structure DlState where
  downloaded : Nat
  lastUpdate : ℤ
deriving DecidableEq

/-- One iteration of the chunk loop (lines 322-332): write the chunk, bump
`downloaded_size`, emit a progress-bar value when `total_size > 0` (the value
is `int(start_progress + (downloaded_size / total_size) * progress_share)`),
and emit a speed-label update — resetting `last_update_time` — only when more
than half a second has passed since the last one. -/
def dlStep (total : Nat) (share strt : ℚ) (st : DlState) (c : Chunk) :
    DlState × List DlEvent :=
  let downloaded := st.downloaded + c.size
  let ev1 : List DlEvent :=
    if 0 < total then
      [.progressValue c.time ⌊strt + ((downloaded : ℚ) / (total : ℚ)) * share⌋]
    else []
  if c.time - st.lastUpdate > usHalfSecond then
    (⟨downloaded, c.time⟩, ev1 ++ [.speedText c.time])
  else
    (⟨downloaded, st.lastUpdate⟩, ev1)

/-- The whole chunk loop, threading the state and concatenating events. -/
def dlRun (total : Nat) (share strt : ℚ) : DlState → List Chunk → DlState × List DlEvent
  | st, [] => (st, [])
  | st, c :: cs =>
    let (st1, evs) := dlStep total share strt st c
    let (st2, evs2) := dlRun total share strt st1 cs
    (st2, evs ++ evs2)

/-- `_download_asset(url, filename, progress_share, start_progress)`:
streams the body into `base_install_dir / filename` and returns that path
(line 335) along with the emitted notifications.  `total` is
`int(r.headers.get('content-length', 0))` and `startTime` is the
`time.time()` taken at line 314 (also the initial `last_update_time`). -/
def download_asset (baseDir filename : String) (total : Nat) (share strt : ℚ)
    (startTime : ℤ) (chunks : List Chunk) : String × List DlEvent :=
  let r := dlRun total share strt ⟨0, startTime⟩ chunks
  (baseDir ++ "/" ++ filename, r.2)

/-- Select the progress-bar events. -/
def isProgressValue : DlEvent → Bool
  | .progressValue _ _ => true
  | .speedText _ => false

/-- The emission times of the progress-bar events, in order. -/
def progressTimes (evs : List DlEvent) : List ℤ :=
  evs.filterMap fun e =>
    match e with
    | .progressValue t _ => some t
    | .speedText _ => none

/-- The emission times of the speed-label events, in order. -/
def speedTimes (evs : List DlEvent) : List ℤ :=
  evs.filterMap fun e =>
    match e with
    | .speedText t => some t
    | .progressValue _ _ => none

/-- The progress-bar values, in order. -/
def progressValuesIn (evs : List DlEvent) : List ℤ :=
  evs.filterMap fun e =>
    match e with
    | .progressValue _ v => some v
    | .speedText _ => none

/-! ## Local version state (`check_local_versions`, `update_ui_for_mode`) -/

/-- What the filesystem shows for one install directory: whether the
directory exists, the content of its `.version` file when that file exists,
and the `**/*.AppImage` glob results in walk order. -/
structure DirState where
  dirExists : Bool
  markerContent : Option String
  appImages : List String
deriving DecidableEq

/-- The per-mode loop body of `check_local_versions` (lines 231-239): when
the directory and its `.version` file both exist, the installed version is
the stripped marker content and the AppImage path is the first glob hit;
otherwise both are `None`. -/
def readLocalState (d : DirState) : Option String × Option String :=
  match d.markerContent with
  | some c => if d.dirExists then (some (pyStrip c), d.appImages.head?) else (none, none)
  | none => (none, none)

/-- Reading local state twice with no intervening writes. -/
def readLocalStateTwice (d : DirState) :
    (Option String × Option String) × (Option String × Option String) :=
  (readLocalState d, readLocalState d)

/-- Line 199: `is_installed = bool(installed_v and install_dir.exists())` —
Python truthiness makes an empty stored version string count as not
installed. -/
def is_installed (d : DirState) : Bool :=
  match (readLocalState d).1 with
  | some v => decide (v ≠ "") && d.dirExists
  | none => false

/-! ## The installer (`_download_and_extract` and its two strategies)

Filesystem and network effects are made explicit.  The state tracks the
version marker of the install directory being operated on and the set of
downloaded archive files sitting in `base_install_dir`; the environment says
which downloads and zip opens succeed and what the `7z` subprocess does.
High-level steps are recorded as events so the order of operations is part of
the model. -/

/-- Marker content and downloaded temporary files (by file name; `open` on a
name already present overwrites, so the list is kept duplicate-free). -/
structure InstallState where
  marker : Option String
  tempFiles : List String
deriving DecidableEq

/-- The Python exceptions these code paths can raise. -/
inductive PyError where
  | valueError (msg : String)
  | netError (asset : String)
  | badZipFile (asset : String)
  | extractionError (msg : String)
  | fileNotFound (name : String)
  | osError (op : String)
deriving DecidableEq

/-- A high-level step performed by the installer. -/
inductive InstEvent where
  | download (name : String) (share strt : ℚ)
  | setProgress (v : ℤ)
  | extractZip (archive target : String)
  | run7z (firstPart target : String)
  | deleteFile (name : String)
  | writeMarker (tag : String)
deriving DecidableEq

/-- Outcome of an installer step: the state it leaves behind, the events it
performed before returning or raising, and the exception propagating out of
it, if any. -/
structure StepResult where
  state : InstallState
  events : List InstEvent
  error : Option PyError
deriving DecidableEq

/-- Which effectful sub-operations succeed: per-asset download outcome,
per-archive `zipfile` outcome, and the `7z` subprocess result (`.error s`
models a non-zero exit whose captured stderr is `s`). -/
structure NetEnv where
  dlOk : String → Bool
  zipOk : String → Bool
  sevenZip : Except String Unit

/-- Creating (or overwriting) a file named `n` in the download area. -/
def addFile (n : String) (fs : List String) : List String :=
  if n ∈ fs then fs else fs ++ [n]

/-- `Path.unlink()` on each listed file in order: removes it, or raises
`FileNotFoundError` (and stops) when it is absent. -/
def unlinkList : List String → InstallState → InstallState × List InstEvent × Option PyError
  | [], st => (st, [], none)
  | n :: ns, st =>
    if n ∈ st.tempFiles then
      let st1 : InstallState := { st with tempFiles := st.tempFiles.erase n }
      let r := unlinkList ns st1
      (r.1, .deleteFile n :: r.2.1, r.2.2)
    else (st, [], some (.fileNotFound n))

/-- `_extract_project_plus(target_dir)` (lines 358-375): look up the
classified AppImage asset (raising `ValueError` when absent), download it
with progress share 80 starting at 0, set the bar to 85, `extractall` into
the target directory, set the bar to 100, and unlink the archive.  A failed
download or a corrupt zip raises with the downloaded (partial) file left in
place. -/
def extract_project_plus (env : NetEnv) (appimage : Option Asset) (targetDir : String)
    (st : InstallState) : StepResult :=
  match appimage with
  | none => ⟨st, [], some (.valueError "Could not find P+ AppImage asset.")⟩
  | some a =>
    let st1 : InstallState := { st with tempFiles := addFile a.name st.tempFiles }
    if env.dlOk a.name then
      if env.zipOk a.name then
        ⟨{ st1 with tempFiles := st1.tempFiles.erase a.name },
         [.download a.name 80 0, .setProgress 85, .extractZip a.name targetDir,
          .setProgress 100, .deleteFile a.name],
         none⟩
      else
        ⟨st1, [.download a.name 80 0, .setProgress 85], some (.badZipFile a.name)⟩
    else
      ⟨st1, [.download a.name 80 0], some (.netError a.name)⟩

/-- The download loop of `_extract_rex` (lines 385-392): part `i` gets the
progress slice `[i * (80/n), (i+1) * (80/n))`.  Returns the state after the
downloads, the events, and the first download failure, if any; a failure
aborts the loop with the earlier parts (and the partial current file) on
disk. -/
def downloadRexParts (env : NetEnv) (share : ℚ) :
    Nat → List Asset → InstallState → InstallState × List InstEvent × Option PyError
  | _, [], st => (st, [], none)
  | i, a :: rest, st =>
    let st1 : InstallState := { st with tempFiles := addFile a.name st.tempFiles }
    let ev : InstEvent := .download a.name share ((i : ℚ) * share)
    if env.dlOk a.name then
      let r := downloadRexParts env share (i + 1) rest st1
      (r.1, ev :: r.2.1, r.2.2)
    else (st1, [ev], some (.netError a.name))

/-- `_extract_rex(target_dir)` (lines 377-410): raise `ValueError` when no
parts are classified; download every part in order; set the bar to 85 and run
`7z x` on the first part; on non-zero exit raise
`Exception("7z extraction failed: " + stderr)` — note the downloaded parts
are NOT unlinked on this path, the unlink loop (lines 409-410) sits after the
`try`/`except` and is only reached on success, after the bar is set to
100. -/
def extract_rex (env : NetEnv) (parts : Option (List Asset)) (targetDir : String)
    (st : InstallState) : StepResult :=
  match parts with
  | none => ⟨st, [], some (.valueError "Could not find REX assets.")⟩
  | some [] => ⟨st, [], some (.valueError "Could not find REX assets.")⟩
  | some (p :: rest) =>
    let share : ℚ := 80 / ((p :: rest).length : ℚ)
    let dl := downloadRexParts env share 0 (p :: rest) st
    match dl.2.2 with
    | some e => ⟨dl.1, dl.2.1, some e⟩
    | none =>
      match env.sevenZip with
      | .error stderr =>
        ⟨dl.1, dl.2.1 ++ [.setProgress 85, .run7z p.name targetDir],
         some (.extractionError ("7z extraction failed: " ++ stderr))⟩
      | .ok _ =>
        let ul := unlinkList ((p :: rest).map Asset.name) dl.1
        ⟨ul.1,
         dl.2.1 ++ [.setProgress 85, .run7z p.name targetDir, .setProgress 100] ++ ul.2.1,
         ul.2.2⟩

/-- The two product variants. -/
inductive Mode where
  | project_plus
  | rex
deriving DecidableEq

/-- `_download_and_extract` (lines 337-356): run the variant's extraction
strategy; only when it returns without raising is the `.version` marker
overwritten with the release tag (lines 347-349).  Any exception leaves the
marker untouched (the `except` block only reports the error; the `finally`
block only hides progress widgets and re-reads local state). -/
def download_and_extract (mode : Mode) (env : NetEnv) (ppAppimage : Option Asset)
    (rexAssets : Option (List Asset)) (tag : String) (installDir : String)
    (st : InstallState) : StepResult :=
  let r :=
    match mode with
    | .project_plus => extract_project_plus env ppAppimage installDir st
    | .rex => extract_rex env rexAssets installDir st
  match r.error with
  | none => ⟨{ r.state with marker := some tag }, r.events ++ [.writeMarker tag], none⟩
  | some e => ⟨r.state, r.events, some e⟩

/-! ## Per-product records, removal, and the trigger state machine -/

/-- A value held for each of the two products. -/
structure PerMode (α : Type) where
  pp : α
  rexv : α
deriving DecidableEq

/-- Look up the value for a mode. -/
def PerMode.get {α : Type} (p : PerMode α) : Mode → α
  | .project_plus => p.pp
  | .rex => p.rexv

/-- Replace the value for a mode. -/
def PerMode.set {α : Type} (p : PerMode α) : Mode → α → PerMode α
  | .project_plus, v => { p with pp := v }
  | .rex, v => { p with rexv := v }

/-- Filesystem facts `remove_installation` touches: per-product install
directory existence and per-product shortcut files in the two well-known
locations (`~/Desktop` and `~/.local/share/applications`; the shortcut file
name `project-plus-<mode>.desktop` is per-product). -/
structure SysFS where
  installDirs : PerMode Bool
  desktopShortcuts : PerMode Bool
  appShortcuts : PerMode Bool
deriving DecidableEq

/-- Steps performed by `remove_installation`. -/
inductive RmEvent where
  | rmtree (m : Mode)
  | unlinkDesktop (m : Mode)
  | unlinkApps (m : Mode)
  | reread
deriving DecidableEq

/-- Which of the three filesystem calls inside `remove_installation`'s `try`
block succeed.  `unlink(missing_ok=True)` tolerates an absent file, so a
`False` here models a genuine `OSError` (e.g. permissions), not a missing
file. -/
structure RmEnv where
  rmtreeOk : Bool
  unlinkDesktopOk : Bool
  unlinkAppsOk : Bool
deriving DecidableEq

/-- Lines 289-290: unlink the two shortcut files in order, each with
`missing_ok=True`; an `OSError` from the first unlink propagates and skips
the second. -/
def unlinkShortcuts (env : RmEnv) (fs : SysFS) (mode : Mode) :
    SysFS × List RmEvent × Option PyError :=
  if env.unlinkDesktopOk then
    let fs2 : SysFS :=
      { fs with desktopShortcuts := fs.desktopShortcuts.set mode false }
    if env.unlinkAppsOk then
      ({ fs2 with appShortcuts := fs2.appShortcuts.set mode false },
       [RmEvent.unlinkDesktop mode, RmEvent.unlinkApps mode], none)
    else (fs2, [RmEvent.unlinkDesktop mode], some (PyError.osError "unlink"))
  else (fs, [], some (PyError.osError "unlink"))

/-- The confirmed branch of `remove_installation` (lines 285-294): one `try`
block runs `shutil.rmtree` on the current product's directory only when it
exists, then unlinks both shortcut files; an `IOError`/`OSError` raised by
any of the three calls jumps to the `except` block (surfacing the error) and
skips the remaining deletions — a failing `rmtree` may leave a partially
deleted tree, abstracted here as the directory entry remaining.  The
`finally` block always runs `check_local_versions()` last. -/
def remove_installation (env : RmEnv) (fs : SysFS) (mode : Mode) :
    SysFS × List RmEvent × Option PyError :=
  let afterTry : SysFS × List RmEvent × Option PyError :=
    if fs.installDirs.get mode then
      if env.rmtreeOk then
        let r := unlinkShortcuts env
          { fs with installDirs := fs.installDirs.set mode false } mode
        (r.1, RmEvent.rmtree mode :: r.2.1, r.2.2)
      else (fs, [], some (PyError.osError "rmtree"))
    else unlinkShortcuts env fs mode
  (afterTry.1, afterTry.2.1 ++ [RmEvent.reread], afterTry.2.2)

/-- Line 219-227 of `update_ui_for_mode`: the Download/Update button is
enabled iff a latest version is known and differs from the installed one, or
nothing is installed and a latest version is known.  Python truthiness:
`None` and the empty string are falsy. -/
def pyTruthy (o : Option String) : Bool :=
  match o with
  | none => false
  | some s => decide (s ≠ "")

/-- The button-enabling rule of `update_ui_for_mode`. -/
def computeUpdateEnabled (installed latest : Option String) : Bool :=
  if pyTruthy latest && decide (installed ≠ latest) then true
  else if !pyTruthy installed && pyTruthy latest then true
  else false

/-- The mutable state relevant to starting download workers: the selected
mode, whether the Download/Update button is currently enabled, the
per-product version bookkeeping, and how many `_download_and_extract` workers
are running per product.  The source has no other guard — no in-progress
flag, no lock. -/
structure UIState where
  game_mode : Mode
  updateEnabled : Bool
  installed : PerMode (Option String)
  latest : PerMode (Option String)
  inFlight : PerMode Nat
deriving DecidableEq

/-- The user-interface events that matter for duplicate-operation control.
Clicking a disabled button is a no-op (Qt never fires the slot). -/
inductive UIEvent where
  | clickUpdate
  | switchMode (m : Mode)
deriving DecidableEq

/-- `start_download` (lines 304-309) disables the button and spawns a worker
for the current mode; `switch_game_mode` (lines 167-169) sets the mode and
runs `check_local_versions`, whose trailing `update_ui_for_mode` recomputes
the button's enabled state from the version comparison alone — regardless of
any in-flight worker. -/
def uiStep (s : UIState) : UIEvent → UIState
  | .clickUpdate =>
    if s.updateEnabled then
      { s with
        updateEnabled := false,
        inFlight := s.inFlight.set s.game_mode (s.inFlight.get s.game_mode + 1) }
    else s
  | .switchMode m =>
    { s with
      game_mode := m,
      updateEnabled := computeUpdateEnabled (s.installed.get m) (s.latest.get m) }

/-- A sequence of user-interface events. -/
def uiRun (s : UIState) (evs : List UIEvent) : UIState :=
  evs.foldl uiStep s

/-! ## HD texture extraction (`_hd_texture_worker`, lines 482-497) -/

/-- A zip archive member: its stored path and whether it is a directory
entry. -/
structure ZipMember where
  filename : String
  isDir : Bool
deriving DecidableEq

/-- Python `split('/')` on a character list: splitting yields one (possibly
empty) field per separator-delimited run, with `[""]` for the empty
string. -/
def splitSlashChars : List Char → List String
  | [] => [""]
  | c :: rest =>
    let r := splitSlashChars rest
    if c = '/' then "" :: r
    else
      match r with
      | [] => [String.mk [c]]
      | s :: ss => String.mk (c :: s.data) :: ss

/-- Python `member.filename.split('/')`. -/
def splitSlash (s : String) : List String := splitSlashChars s.data

/-- `path_parts.index(TEXTURE_GAME_ID)` followed by the slice
`path_parts[id_index:]`: keep the path from the FIRST occurrence of the
game-identifier segment onward, or `none` (the `ValueError` → `continue`
path) when the segment is absent. -/
def dropBefore (gid : String) : List String → Option (List String)
  | [] => none
  | p :: rest => if p = gid then some (p :: rest) else dropBefore gid rest

/-- The destination path components for one member of the texture archive in
the `project_plus` branch: directory entries are skipped (line 487), entries
without the segment are skipped (line 492), and the rest are re-rooted at the
segment. -/
def textureDest (gid : String) (m : ZipMember) : Option (List String) :=
  if m.isDir then none else dropBefore gid (splitSlash m.filename)

/-- The extraction loop of lines 486-497: every kept member is written to
`extract_path / new_relative_path`; the result lists each written member with
its re-rooted path components. -/
def hdTextureWrites (gid : String) (members : List ZipMember) :
    List (ZipMember × List String) :=
  members.filterMap fun m => (textureDest gid m).map fun d => (m, d)

/-- The path components strictly before the game-identifier segment, used to
state what the re-rooting discards. -/
def notGid (gid s : String) : Bool := !(s == gid)

/-- A network environment in which everything succeeds. -/
def envOk : NetEnv := ⟨fun _ => true, fun _ => true, .ok ()⟩

/-- A network environment in which downloads succeed but `7z` exits non-zero
with stderr `"disk full"`. -/
def envDiskFull : NetEnv := ⟨fun _ => true, fun _ => true, .error "disk full"⟩

/-- A launcher state with Project+ selected, an update available for it
(installed `v1`, latest `v2`), a REX release known, and no worker running:
what `update_ui_for_mode` produces right after startup checks. -/
def uiStart : UIState :=
  ⟨.project_plus, true, ⟨some "v1", none⟩, ⟨some "v2", some "r1"⟩, ⟨0, 0⟩⟩

end PPlusUpdater

namespace PPlusUpdater

example : pyStrip "  v2.1\n" = "v2.1" := by decide

example : strContains "rex.zip.001" ".zip." = true := by decide

example : strContains "rex-hd-textures.zip" ".zip." = false := by decide

example : strEndsWith "Game.AppImage.zip" ".AppImage.zip" = true := by decide

example :
    rexParts [⟨"pack.zip.003", 1⟩, ⟨"pack.zip.001", 1⟩, ⟨"pack.zip.002", 1⟩] =
      [⟨"pack.zip.001", 1⟩, ⟨"pack.zip.002", 1⟩, ⟨"pack.zip.003", 1⟩] := by
  decide

example :
    progressTimes (download_asset "Applications" "f.zip" 100 80 0 0
      [⟨50, 100000⟩, ⟨50, 200000⟩]).2 = [100000, 200000] := by decide

example :
    speedTimes (download_asset "Applications" "f.zip" 100 80 0 0
      [⟨50, 100000⟩, ⟨50, 200000⟩]).2 = [] := by decide

example :
    progressTimes (download_asset "Applications" "f.zip" 0 80 0 0 [⟨50, 600000⟩]).2
      = [] := by decide

example :
    (download_and_extract .rex envDiskFull none (some [⟨"rex.zip.001", 5⟩]) "r1" "REX"
      ⟨none, []⟩).error = some (.extractionError "7z extraction failed: disk full") := by
  decide

example :
    (download_and_extract .rex envDiskFull none (some [⟨"rex.zip.001", 5⟩]) "r1" "REX"
      ⟨none, []⟩).state.tempFiles = ["rex.zip.001"] := by decide

example :
    (download_and_extract .project_plus envOk (some ⟨"Game.AppImage.zip", 1000⟩) none
      "v2.1" "ProjectPlus" ⟨none, []⟩).state.marker = some "v2.1" := by decide

example :
    (download_and_extract .project_plus envOk (some ⟨"Game.AppImage.zip", 1000⟩) none
      "v2.1" "ProjectPlus" ⟨none, []⟩).events =
      [.download "Game.AppImage.zip" 80 0, .setProgress 85,
       .extractZip "Game.AppImage.zip" "ProjectPlus", .setProgress 100,
       .deleteFile "Game.AppImage.zip", .writeMarker "v2.1"] := by decide

example :
    ((uiRun ⟨.project_plus, true, ⟨some "v1", none⟩, ⟨some "v2", some "r1"⟩, ⟨0, 0⟩⟩
      [.clickUpdate, .switchMode .rex, .switchMode .project_plus,
       .clickUpdate]).inFlight).get .project_plus = 2 := by decide

example :
    hdTextureWrites "RSBE01"
      [⟨"textures/RSBE01/a.png", false⟩, ⟨"other/file.txt", false⟩,
       ⟨"textures/RSBE01/", true⟩] =
      [(⟨"textures/RSBE01/a.png", false⟩, ["RSBE01", "a.png"])] := by decide

example :
    (remove_installation ⟨true, true, true⟩
      ⟨⟨true, true⟩, ⟨true, false⟩, ⟨false, true⟩⟩ .project_plus).2.1 =
      [.rmtree .project_plus, .unlinkDesktop .project_plus,
       .unlinkApps .project_plus, .reread] := by decide

example :
    (remove_installation ⟨false, true, true⟩
      ⟨⟨true, true⟩, ⟨true, false⟩, ⟨false, true⟩⟩ .project_plus).2.1 =
      [.reread] := by decide

example : is_installed ⟨true, some "", []⟩ = false := by decide

example : is_installed ⟨true, some " v2.1 ", ["x.AppImage"]⟩ = true := by decide

example : is_installed ⟨true, none, []⟩ = false := by decide

/-! ## Helper lemmas -/

theorem charListLe_trans :
    ∀ {x y z : List Char}, charListLe x y = true → charListLe y z = true →
      charListLe x z = true := by
  intro x
  induction x with
  | nil => intro y z _ _; rfl
  | cons a as ih =>
    intro y z hxy hyz
    cases y with
    | nil => simp [charListLe] at hxy
    | cons b bs =>
      cases z with
      | nil => simp [charListLe] at hyz
      | cons c cs =>
        simp only [charListLe] at hxy hyz ⊢
        by_cases hab : a = b
        · subst hab
          simp only [if_pos rfl] at hxy
          by_cases hbc : a = c
          · subst hbc
            simp only [if_pos rfl] at hyz ⊢
            exact ih hxy hyz
          · simp only [if_neg hbc] at hyz ⊢
            exact hyz
        · simp only [if_neg hab, decide_eq_true_eq] at hxy
          by_cases hbc : b = c
          · subst hbc
            simp only [if_neg hab, decide_eq_true_eq]
            exact hxy
          · simp only [if_neg hbc, decide_eq_true_eq] at hyz
            have hac : a < c := lt_trans hxy hyz
            simp only [if_neg (ne_of_lt hac), decide_eq_true_eq]
            exact hac

theorem charListLe_total :
    ∀ (x y : List Char), charListLe x y = true ∨ charListLe y x = true := by
  intro x
  induction x with
  | nil => intro y; left; rfl
  | cons a as ih =>
    intro y
    cases y with
    | nil => right; rfl
    | cons b bs =>
      simp only [charListLe]
      by_cases hab : a = b
      · subst hab
        simp only [if_pos rfl]
        exact ih bs
      · rcases lt_or_gt_of_ne hab with h | h
        · left
          simp [if_neg hab, h]
        · right
          simp [if_neg (Ne.symm hab), h]

instance nameLeIsTrans : IsTrans Asset fun a b => nameLe a b = true :=
  ⟨fun _ _ _ => charListLe_trans⟩

instance nameLeIsTotal : IsTotal Asset fun a b => nameLe a b = true :=
  ⟨fun a b => charListLe_total a.name.data b.name.data⟩

theorem hasInfixFrom_append_left (pat x : List Char) :
    ∀ l : List Char, hasInfixFrom pat l = true →
      hasInfixFrom pat (x ++ l) = true := by
  induction x with
  | nil => intro l h; simpa using h
  | cons c cs ih =>
    intro l h
    simp only [List.cons_append, hasInfixFrom, Bool.or_eq_true]
    exact Or.inr (ih l h)

theorem hasInfixFrom_self (pat : List Char) : hasInfixFrom pat pat = true := by
  cases pat with
  | nil => rfl
  | cons c cs =>
    have hp : List.isPrefixOf (c :: cs) (c :: cs) = true := by simp
    simp only [hasInfixFrom, hp, Bool.true_or]

/-- The raised message `"7z extraction failed: " + e.stderr` contains the
captured stderr as a substring. -/
theorem strContains_append_right (x s : String) :
    strContains (x ++ s) s = true := by
  unfold strContains
  rw [String.data_append]
  exact hasInfixFrom_append_left s.data x.data s.data (hasInfixFrom_self s.data)

theorem addFile_self (n : String) (fs : List String) : n ∈ addFile n fs := by
  unfold addFile
  split
  · assumption
  · exact List.mem_append_right _ (List.mem_singleton.mpr rfl)

theorem addFile_mem {m : String} (n : String) {fs : List String} (h : m ∈ fs) :
    m ∈ addFile n fs := by
  unfold addFile
  split
  · exact h
  · exact List.mem_append_left _ h

theorem unlinkList_marker (ns : List String) :
    ∀ st : InstallState, (unlinkList ns st).1.marker = st.marker := by
  induction ns with
  | nil => intro st; rfl
  | cons n ns ih =>
    intro st
    simp only [unlinkList]
    split
    · exact ih _
    · rfl

theorem downloadRexParts_marker (env : NetEnv) (share : ℚ) :
    ∀ (ps : List Asset) (i : Nat) (st : InstallState),
      (downloadRexParts env share i ps st).1.marker = st.marker := by
  intro ps
  induction ps with
  | nil => intro i st; rfl
  | cons a rest ih =>
    intro i st
    simp only [downloadRexParts]
    split
    · exact ih _ _
    · rfl

theorem downloadRexParts_mono (env : NetEnv) (share : ℚ) :
    ∀ (ps : List Asset) (i : Nat) (st : InstallState) (n : String),
      n ∈ st.tempFiles → n ∈ (downloadRexParts env share i ps st).1.tempFiles := by
  intro ps
  induction ps with
  | nil => intro i st n h; exact h
  | cons a rest ih =>
    intro i st n h
    simp only [downloadRexParts]
    split
    · exact ih _ _ _ (addFile_mem a.name h)
    · exact addFile_mem a.name h

theorem downloadRexParts_ok (env : NetEnv) (share : ℚ) :
    ∀ (ps : List Asset) (i : Nat) (st : InstallState),
      (∀ a ∈ ps, env.dlOk a.name = true) →
      (downloadRexParts env share i ps st).2.2 = none
      ∧ ∀ a ∈ ps, a.name ∈ (downloadRexParts env share i ps st).1.tempFiles := by
  intro ps
  induction ps with
  | nil => intro i st _; exact ⟨rfl, by simp⟩
  | cons a rest ih =>
    intro i st hall
    have ha : env.dlOk a.name = true := hall a (List.mem_cons_self a rest)
    simp only [downloadRexParts, ha, if_pos]
    constructor
    · exact (ih (i + 1) _ fun b hb => hall b (List.mem_cons_of_mem a hb)).1
    · intro b hb
      rcases List.mem_cons.mp hb with hb | hb
      · subst hb
        exact downloadRexParts_mono env share rest (i + 1) _ b.name
          (addFile_self b.name st.tempFiles)
      · exact (ih (i + 1) _ fun c hc => hall c (List.mem_cons_of_mem a hc)).2 b hb

theorem extract_project_plus_marker (env : NetEnv) (appimage : Option Asset)
    (dir : String) (st : InstallState) :
    (extract_project_plus env appimage dir st).state.marker = st.marker := by
  unfold extract_project_plus
  split
  · rfl
  · dsimp only
    split
    · split
      · rfl
      · rfl
    · rfl

theorem extract_rex_marker (env : NetEnv) (parts : Option (List Asset))
    (dir : String) (st : InstallState) :
    (extract_rex env parts dir st).state.marker = st.marker := by
  unfold extract_rex
  split
  · rfl
  · rfl
  · dsimp only
    split
    · exact downloadRexParts_marker env _ _ _ _
    · split
      · exact downloadRexParts_marker env _ _ _ _
      · rw [unlinkList_marker]
        exact downloadRexParts_marker env _ _ _ _

theorem dlRun_cons (total : Nat) (share strt : ℚ) (st : DlState) (c : Chunk)
    (cs : List Chunk) :
    dlRun total share strt st (c :: cs) =
      ((dlRun total share strt (dlStep total share strt st c).1 cs).1,
       (dlStep total share strt st c).2 ++
         (dlRun total share strt (dlStep total share strt st c).1 cs).2) := rfl

theorem speedTimes_append (a b : List DlEvent) :
    speedTimes (a ++ b) = speedTimes a ++ speedTimes b := by
  simp [speedTimes]

theorem progressTimes_append (a b : List DlEvent) :
    progressTimes (a ++ b) = progressTimes a ++ progressTimes b := by
  simp [progressTimes]

theorem progressValuesIn_append (a b : List DlEvent) :
    progressValuesIn (a ++ b) = progressValuesIn a ++ progressValuesIn b := by
  simp [progressValuesIn]

theorem dlStep_downloaded (total : Nat) (share strt : ℚ) (st : DlState) (c : Chunk) :
    (dlStep total share strt st c).1.downloaded = st.downloaded + c.size := by
  by_cases hthr : c.time - st.lastUpdate > usHalfSecond <;>
    simp [dlStep, hthr]

theorem dlRun_speed_chain (total : Nat) (share strt : ℚ) :
    ∀ (chunks : List Chunk) (st : DlState),
      List.Chain' (fun a b => a + usHalfSecond < b)
        (st.lastUpdate :: speedTimes (dlRun total share strt st chunks).2) := by
  intro chunks
  induction chunks with
  | nil => intro st; simp [dlRun, speedTimes]
  | cons c cs ih =>
    intro st
    rw [dlRun_cons, speedTimes_append]
    by_cases hthr : c.time - st.lastUpdate > usHalfSecond
    · have h2 : (dlStep total share strt st c).1 = ⟨st.downloaded + c.size, c.time⟩ := by
        simp [dlStep, hthr]
      have h1 : speedTimes (dlStep total share strt st c).2 = [c.time] := by
        by_cases htot : 0 < total <;> simp [dlStep, hthr, htot, speedTimes]
      rw [h1, h2]
      refine List.chain'_cons.mpr ⟨by linarith, ?_⟩
      have := ih ⟨st.downloaded + c.size, c.time⟩
      simpa using this
    · have h2 : (dlStep total share strt st c).1 =
          ⟨st.downloaded + c.size, st.lastUpdate⟩ := by
        simp [dlStep, hthr]
      have h1 : speedTimes (dlStep total share strt st c).2 = [] := by
        by_cases htot : 0 < total <;> simp [dlStep, hthr, htot, speedTimes]
      rw [h1, h2]
      have := ih ⟨st.downloaded + c.size, st.lastUpdate⟩
      simpa using this

theorem dlRun_progress_times (total : Nat) (share strt : ℚ) (htot : 0 < total) :
    ∀ (chunks : List Chunk) (st : DlState),
      progressTimes (dlRun total share strt st chunks).2 = chunks.map Chunk.time := by
  intro chunks
  induction chunks with
  | nil => intro st; simp [dlRun, progressTimes]
  | cons c cs ih =>
    intro st
    rw [dlRun_cons, progressTimes_append]
    have h1 : progressTimes (dlStep total share strt st c).2 = [c.time] := by
      by_cases hthr : c.time - st.lastUpdate > usHalfSecond <;>
        simp [dlStep, hthr, htot, progressTimes]
    rw [h1, ih]
    rfl

theorem dlRun_zero_total (share strt : ℚ) :
    ∀ (chunks : List Chunk) (st : DlState),
      progressValuesIn (dlRun 0 share strt st chunks).2 = []
      ∧ (dlRun 0 share strt st chunks).1.downloaded =
          st.downloaded + (chunks.map Chunk.size).sum := by
  intro chunks
  induction chunks with
  | nil => intro st; exact ⟨rfl, by simp [dlRun]⟩
  | cons c cs ih =>
    intro st
    rw [dlRun_cons, progressValuesIn_append]
    have h1 : progressValuesIn (dlStep 0 share strt st c).2 = [] := by
      by_cases hthr : c.time - st.lastUpdate > usHalfSecond <;>
        simp [dlStep, hthr, progressValuesIn]
    constructor
    · rw [h1, (ih _).1]
      rfl
    · have := (ih (dlStep 0 share strt st c).1).2
      rw [this, dlStep_downloaded]
      simp [Nat.add_assoc]

theorem dlRun_progress_range (total : Nat) (htot : 0 < total) :
    ∀ (chunks : List Chunk) (st : DlState),
      st.downloaded + (chunks.map Chunk.size).sum ≤ total →
      ∀ v ∈ progressValuesIn (dlRun total 80 0 st chunks).2, 0 ≤ v ∧ v ≤ 80 := by
  intro chunks
  induction chunks with
  | nil => intro st _ v hv; simp [dlRun, progressValuesIn] at hv
  | cons c cs ih =>
    intro st hle v hv
    rw [dlRun_cons, progressValuesIn_append] at hv
    have hstep : progressValuesIn (dlStep total 80 0 st c).2 =
        [⌊(0 : ℚ) + (((st.downloaded + c.size : ℕ) : ℚ) / (total : ℚ)) * 80⌋] := by
      by_cases hthr : c.time - st.lastUpdate > usHalfSecond <;>
        simp [dlStep, hthr, htot, progressValuesIn]
    have hd : st.downloaded + c.size ≤ total := by
      refine le_trans ?_ hle
      simp only [List.map_cons, List.sum_cons]
      exact Nat.add_le_add_left (Nat.le_add_right _ _) _
    rcases List.mem_append.mp hv with hv | hv
    · rw [hstep, List.mem_singleton] at hv
      subst hv
      have hx0 : (0 : ℚ) ≤ ((st.downloaded + c.size : ℕ) : ℚ) / (total : ℚ) :=
        div_nonneg (Nat.cast_nonneg _) (Nat.cast_nonneg _)
      have hx1 : ((st.downloaded + c.size : ℕ) : ℚ) / (total : ℚ) ≤ 1 := by
        rw [div_le_one (by exact_mod_cast htot)]
        exact_mod_cast hd
      constructor
      · exact Int.floor_nonneg.mpr (by nlinarith)
      · calc ⌊(0 : ℚ) + (((st.downloaded + c.size : ℕ) : ℚ) / (total : ℚ)) * 80⌋
            ≤ ⌊(80 : ℚ)⌋ := Int.floor_le_floor (by nlinarith)
          _ = 80 := by norm_num
    · refine ih (dlStep total 80 0 st c).1 ?_ v hv
      rw [dlStep_downloaded]
      calc st.downloaded + c.size + (cs.map Chunk.size).sum
          = st.downloaded + ((c :: cs).map Chunk.size).sum := by
            simp [Nat.add_assoc]
        _ ≤ total := hle

theorem dropBefore_spec (gid : String) :
    ∀ (l d : List String), dropBefore gid l = some d →
      l = l.takeWhile (notGid gid) ++ d
      ∧ gid ∉ l.takeWhile (notGid gid)
      ∧ d.head? = some gid := by
  intro l
  induction l with
  | nil => intro d h; simp [dropBefore] at h
  | cons p rest ih =>
    intro d h
    by_cases hp : p = gid
    · subst hp
      have hd : p :: rest = d := by simpa [dropBefore] using h
      subst hd
      simp [List.takeWhile_cons, notGid]
    · simp only [dropBefore, if_neg hp] at h
      obtain ⟨h1, h2, h3⟩ := ih d h
      have htw : (p :: rest).takeWhile (notGid gid) =
          p :: rest.takeWhile (notGid gid) := by
        simp [List.takeWhile_cons, notGid, hp]
      refine ⟨?_, ?_, h3⟩
      · rw [htw, List.cons_append]
        exact congrArg (p :: ·) h1
      · rw [htw]
        intro hmem
        rcases List.mem_cons.mp hmem with hx | hx
        · exact hp hx.symm
        · exact h2 hx

theorem dropBefore_isSome (gid : String) :
    ∀ l : List String, (dropBefore gid l).isSome = true ↔ gid ∈ l := by
  intro l
  induction l with
  | nil => simp [dropBefore]
  | cons p rest ih =>
    by_cases hp : p = gid
    · subst hp
      simp [dropBefore]
    · simp [dropBefore, if_neg hp, ih, List.mem_cons, Ne.symm hp]

theorem PerMode.get_set_same {α : Type} (p : PerMode α) (m : Mode) (v : α) :
    (p.set m v).get m = v := by
  cases m <;> rfl

theorem PerMode.get_set_other {α : Type} (p : PerMode α) (m m2 : Mode) (v : α)
    (h : m2 ≠ m) : (p.set m v).get m2 = p.get m2 := by
  cases m <;> cases m2 <;> first | rfl | exact absurd rfl h

/-! ## Claim theorems -/

/-- C10: with no content-length header (`total = 0`) the download still
streams every chunk to completion and returns the destination path, and the
percentage-progress computation — whose division by `total` sits under the
`if total_size > 0` guard — is never performed: no progress-bar value is
emitted at all, so no division by zero can occur. -/
theorem download_without_content_length (bd fn : String) (share strt : ℚ) (t0 : ℤ)
    (chunks : List Chunk) :
    progressValuesIn (download_asset bd fn 0 share strt t0 chunks).2 = []
    ∧ (download_asset bd fn 0 share strt t0 chunks).1 = bd ++ "/" ++ fn
    ∧ (dlRun 0 share strt ⟨0, t0⟩ chunks).1.downloaded = (chunks.map Chunk.size).sum := by
  refine ⟨(dlRun_zero_total share strt chunks ⟨0, t0⟩).1, rfl, ?_⟩
  have h := (dlRun_zero_total share strt chunks ⟨0, t0⟩).2
  simpa using h

/-- C5 counterexample: two chunks arriving 0.1 s apart each trigger a
progress-bar notification — two notifications within a tenth of a second,
far above two per second, and with no speed-label throttling applied to
them.  The claim that every progress notification is rate-bounded to ~2
calls/second is false: only the speed label is throttled. -/
theorem progress_throttle_cex :
    progressTimes (download_asset "Applications" "f.zip" 100 80 0 0
      [⟨50, 100000⟩, ⟨50, 200000⟩]).2 = [100000, 200000]
    ∧ ((200000 : ℤ) - 100000 < usHalfSecond)
    ∧ speedTimes (download_asset "Applications" "f.zip" 100 80 0 0
      [⟨50, 100000⟩, ⟨50, 200000⟩]).2 = [] := by
  exact ⟨by decide, by decide, by decide⟩

/-- C5 amended: only the speed-label notifications are throttled —
consecutive speed updates are always more than half a second apart (at most
~2 per second) — while the progress-bar value notification is emitted on
EVERY chunk whenever the total size is known: its emission times are exactly
the chunk arrival times, unthrottled. -/
theorem download_notification_rates (bd fn : String) (total : Nat) (share strt : ℚ)
    (t0 : ℤ) (chunks : List Chunk) :
    List.Chain' (fun a b => a + usHalfSecond < b)
      (t0 :: speedTimes (download_asset bd fn total share strt t0 chunks).2)
    ∧ (0 < total →
        progressTimes (download_asset bd fn total share strt t0 chunks).2 =
          chunks.map Chunk.time) := by
  constructor
  · have h := dlRun_speed_chain total share strt chunks ⟨0, t0⟩
    simpa [download_asset] using h
  · intro htot
    have h := dlRun_progress_times total share strt htot chunks ⟨0, t0⟩
    simpa [download_asset] using h

/-- Witness for the amended C5 statement at a concrete download: a run with
chunks at 0.1 s and 0.7 s emits speed updates more than half a second apart
and one progress value per chunk. -/
theorem download_notification_rates_w :
    List.Chain' (fun a b => a + usHalfSecond < b)
      (0 :: speedTimes (download_asset "Applications" "g.zip" 100 80 0 0
        [⟨50, 100000⟩, ⟨50, 700000⟩]).2)
    ∧ progressTimes (download_asset "Applications" "g.zip" 100 80 0 0
        [⟨50, 100000⟩, ⟨50, 700000⟩]).2 = [100000, 700000] := by
  refine ⟨(download_notification_rates "Applications" "g.zip" 100 80 0 0
    [⟨50, 100000⟩, ⟨50, 700000⟩]).1, ?_⟩
  have h := (download_notification_rates "Applications" "g.zip" 100 80 0 0
    [⟨50, 100000⟩, ⟨50, 700000⟩]).2 (by decide)
  simpa using h

/-- C6: under the filesystem invariant that a marker file can only exist
inside an existing directory, the mode is reported installed iff the marker
exists with non-empty stripped content; an empty marker or a missing marker
reports not-installed; and reading local state twice with no intervening
writes yields identical results. -/
theorem installed_iff_marker (d : DirState)
    (hwf : d.markerContent.isSome = true → d.dirExists = true) :
    (is_installed d = true ↔ ∃ c, d.markerContent = some c ∧ pyStrip c ≠ "")
    ∧ (d.markerContent = none → is_installed d = false)
    ∧ (d.markerContent = some "" → is_installed d = false)
    ∧ (readLocalStateTwice d).1 = (readLocalStateTwice d).2 := by
  refine ⟨?_, ?_, ?_, rfl⟩
  · cases hm : d.markerContent with
    | none => simp [is_installed, readLocalState, hm]
    | some c =>
      have hd : d.dirExists = true := hwf (by simp [hm])
      simp [is_installed, readLocalState, hm, hd]
  · intro hm
    simp [is_installed, readLocalState, hm]
  · intro hm
    have hd : d.dirExists = true := hwf (by simp [hm])
    have hstrip : pyStrip "" = "" := rfl
    simp [is_installed, readLocalState, hm, hd, hstrip]

/-- Witness for C6: a directory with marker content `" v2.1 "` is reported
installed. -/
theorem installed_iff_marker_w :
    is_installed ⟨true, some " v2.1 ", []⟩ = true := by
  exact (installed_iff_marker ⟨true, some " v2.1 ", []⟩ (by decide)).1.mpr
    ⟨" v2.1 ", rfl, by decide⟩

/-- C3: classification is a total function on assets — the split-part
and texture-pack name tests for REX can never both hold, each classifier
branch is characterised exactly by its name rule — and for EVERY input asset
list the split-parts output is sorted ascending by lexical name and consists
exactly of the split-part assets. -/
theorem classifier_total_sorted (assets : List Asset) :
    List.Sorted (fun a b => nameLe a b = true) (rexParts assets)
    ∧ (∀ a ∈ rexParts assets, rexIsSplitPart a = true)
    ∧ (∀ a : Asset, ¬(rexIsSplitPart a = true ∧ rexIsTexturePack a = true))
    ∧ (∀ a : Asset,
        classifyPPlus a = Role.primary_archive ↔
          strEndsWith a.name ".AppImage.zip" = true)
    ∧ (∀ a : Asset, classifyRex a = Role.split_part ↔ rexIsSplitPart a = true) := by
  refine ⟨?_, ?_, ?_, ?_, ?_⟩
  · rw [rexParts]
    exact List.sorted_insertionSort _ _
  · intro a ha
    rw [rexParts, List.mem_insertionSort] at ha
    exact (List.mem_filter.mp ha).2
  · rintro a ⟨h1, h2⟩
    have hn : a.name = "rex-hd-textures.zip" := by
      simpa [rexIsTexturePack] using h2
    rw [rexIsSplitPart, hn] at h1
    exact absurd h1 (by decide)
  · intro a
    unfold classifyPPlus
    by_cases h1 : strEndsWith a.name ".AppImage.zip" = true
    · simp [h1]
    · by_cases h2 : strEndsWith a.name ".HD.Textures.zip" = true <;> simp [h1, h2]
  · intro a
    unfold classifyRex
    by_cases h1 : rexIsSplitPart a = true
    · simp [h1]
    · by_cases h2 : rexIsTexturePack a = true <;> simp [h1, h2]

/-- Witness for C3: a scrambled three-part list comes out sorted, and a
`.AppImage.zip` asset is classified as the primary archive. -/
theorem classifier_total_sorted_w :
    List.Sorted (fun a b => nameLe a b = true)
      (rexParts [⟨"pack.zip.003", 7⟩, ⟨"pack.zip.001", 7⟩, ⟨"pack.zip.002", 7⟩])
    ∧ classifyPPlus ⟨"Game.AppImage.zip", 1000⟩ = Role.primary_archive := by
  refine ⟨(classifier_total_sorted
    [⟨"pack.zip.003", 7⟩, ⟨"pack.zip.001", 7⟩, ⟨"pack.zip.002", 7⟩]).1, ?_⟩
  exact ((classifier_total_sorted []).2.2.2.1 ⟨"Game.AppImage.zip", 1000⟩).mpr (by decide)

/-- C8: for the `project_plus` variant, a member is written iff it is a
non-directory entry whose split path contains the `RSBE01` segment; the
written destination is the original path with everything before the first
`RSBE01` segment discarded (the discarded part contains no `RSBE01`), the
structure from the segment onward preserved, and — via the membership iff —
entries lacking the segment are silently skipped. -/
theorem texture_filter_reroot (members : List ZipMember) (m : ZipMember)
    (d : List String) :
    ((m, d) ∈ hdTextureWrites "RSBE01" members ↔
      m ∈ members ∧ m.isDir = false
        ∧ dropBefore "RSBE01" (splitSlash m.filename) = some d)
    ∧ ((m, d) ∈ hdTextureWrites "RSBE01" members →
        splitSlash m.filename =
          (splitSlash m.filename).takeWhile (notGid "RSBE01") ++ d
        ∧ "RSBE01" ∉ (splitSlash m.filename).takeWhile (notGid "RSBE01")
        ∧ d.head? = some "RSBE01")
    ∧ ((dropBefore "RSBE01" (splitSlash m.filename)).isSome = true ↔
        "RSBE01" ∈ splitSlash m.filename) := by
  have hmem : (m, d) ∈ hdTextureWrites "RSBE01" members ↔
      m ∈ members ∧ m.isDir = false
        ∧ dropBefore "RSBE01" (splitSlash m.filename) = some d := by
    unfold hdTextureWrites
    rw [List.mem_filterMap]
    constructor
    · rintro ⟨a, ha, hfa⟩
      rcases hda : textureDest "RSBE01" a with _ | d2
      · rw [hda] at hfa
        simp at hfa
      · rw [hda] at hfa
        simp only [Option.map_some', Option.some.injEq, Prod.mk.injEq] at hfa
        obtain ⟨rfl, rfl⟩ := hfa
        have hdir : a.isDir = false := by
          by_cases hb : a.isDir = true
          · rw [textureDest, hb] at hda
            simp at hda
          · simpa using hb
        rw [textureDest, hdir] at hda
        simp at hda
        exact ⟨ha, hdir, hda⟩
    · rintro ⟨hm2, hdir, hdrop⟩
      exact ⟨m, hm2, by simp [textureDest, hdir, hdrop]⟩
  refine ⟨hmem, ?_, dropBefore_isSome "RSBE01" _⟩
  intro hw
  obtain ⟨_, _, hdrop⟩ := hmem.mp hw
  exact dropBefore_spec "RSBE01" _ d hdrop

/-- Witness for C8: `textures/RSBE01/a.png` is kept and re-rooted to
`RSBE01/a.png` in a two-member archive. -/
theorem texture_filter_reroot_w :
    (⟨"textures/RSBE01/a.png", false⟩, ["RSBE01", "a.png"]) ∈
      hdTextureWrites "RSBE01"
        [⟨"textures/RSBE01/a.png", false⟩, ⟨"other/file.txt", false⟩] := by
  exact (texture_filter_reroot
    [⟨"textures/RSBE01/a.png", false⟩, ⟨"other/file.txt", false⟩]
    ⟨"textures/RSBE01/a.png", false⟩ ["RSBE01", "a.png"]).1.mpr
    ⟨by decide, rfl, by decide⟩

/-- C9 counterexample: with the install directory present and `rmtree`
raising an `OSError`, a confirmed removal surfaces the error, runs only the
final local-state re-read, and leaves BOTH shortcut files in place —
refuting the claim that the shortcut files are always deleted from both
locations. -/
theorem removal_skips_shortcuts_cex :
    (remove_installation ⟨false, true, true⟩
      ⟨⟨true, true⟩, ⟨true, true⟩, ⟨true, true⟩⟩
      Mode.project_plus).1.desktopShortcuts.get .project_plus = true
    ∧ (remove_installation ⟨false, true, true⟩
        ⟨⟨true, true⟩, ⟨true, true⟩, ⟨true, true⟩⟩
        Mode.project_plus).1.appShortcuts.get .project_plus = true
    ∧ (remove_installation ⟨false, true, true⟩
        ⟨⟨true, true⟩, ⟨true, true⟩, ⟨true, true⟩⟩
        Mode.project_plus).2.2 = some (PyError.osError "rmtree")
    ∧ (remove_installation ⟨false, true, true⟩
        ⟨⟨true, true⟩, ⟨true, true⟩, ⟨true, true⟩⟩
        Mode.project_plus).2.1 = [RmEvent.reread] := by
  exact ⟨by decide, by decide, by decide, by decide⟩

/-- C9 amended: a confirmed removal deletes the current product's install
directory when it exists (skipping `rmtree` as a no-op when it does not) and
unlinks that product's shortcut file from both well-known locations (missing
files tolerated) — but only in the absence of filesystem errors, since the
three calls share one `try` block: an `OSError` from `rmtree` skips both
unlinks, and one from the first unlink skips the second, the error being
surfaced instead.  The local-state re-read always runs last (`finally`), and
the other product's install directory and shortcuts are never touched. -/
theorem removal_behavior (env : RmEnv) (fs : SysFS) (mode : Mode) :
    (env.rmtreeOk = true → env.unlinkDesktopOk = true → env.unlinkAppsOk = true →
      (remove_installation env fs mode).1.installDirs.get mode = false
      ∧ (remove_installation env fs mode).1.desktopShortcuts.get mode = false
      ∧ (remove_installation env fs mode).1.appShortcuts.get mode = false
      ∧ (remove_installation env fs mode).2.2 = none
      ∧ (fs.installDirs.get mode = true →
          (remove_installation env fs mode).2.1 =
            [RmEvent.rmtree mode, RmEvent.unlinkDesktop mode, RmEvent.unlinkApps mode,
             RmEvent.reread])
      ∧ (fs.installDirs.get mode = false →
          (remove_installation env fs mode).2.1 =
            [RmEvent.unlinkDesktop mode, RmEvent.unlinkApps mode, RmEvent.reread]))
    ∧ (remove_installation env fs mode).2.1.getLast? = some RmEvent.reread
    ∧ (∀ m2 : Mode, m2 ≠ mode →
        (remove_installation env fs mode).1.installDirs.get m2 = fs.installDirs.get m2
        ∧ (remove_installation env fs mode).1.desktopShortcuts.get m2 =
            fs.desktopShortcuts.get m2
        ∧ (remove_installation env fs mode).1.appShortcuts.get m2 =
            fs.appShortcuts.get m2)
    ∧ (fs.installDirs.get mode = true → env.rmtreeOk = false →
        (remove_installation env fs mode).1.desktopShortcuts.get mode =
            fs.desktopShortcuts.get mode
        ∧ (remove_installation env fs mode).1.appShortcuts.get mode =
            fs.appShortcuts.get mode
        ∧ (remove_installation env fs mode).2.1 = [RmEvent.reread]
        ∧ (remove_installation env fs mode).2.2 = some (PyError.osError "rmtree"))
    ∧ (env.unlinkDesktopOk = false →
        (remove_installation env fs mode).1.desktopShortcuts.get mode =
            fs.desktopShortcuts.get mode
        ∧ (remove_installation env fs mode).1.appShortcuts.get mode =
            fs.appShortcuts.get mode
        ∧ (remove_installation env fs mode).2.2.isSome = true)
    ∧ (env.unlinkAppsOk = false →
        (remove_installation env fs mode).1.appShortcuts.get mode =
            fs.appShortcuts.get mode
        ∧ (remove_installation env fs mode).2.2.isSome = true) := by
  refine ⟨?_, ?_, ?_, ?_, ?_, ?_⟩
  · intro h1 h2 h3
    by_cases hdir : fs.installDirs.get mode = true
    · refine ⟨?_, ?_, ?_, ?_, fun _ => ?_, ?_⟩ <;>
        first
          | (intro hf; rw [hdir] at hf; cases hf)
          | simp [remove_installation, unlinkShortcuts, h1, h2, h3, hdir,
              PerMode.get_set_same]
    · have hdf : fs.installDirs.get mode = false := by simpa using hdir
      refine ⟨?_, ?_, ?_, ?_, ?_, fun _ => ?_⟩ <;>
        first
          | (intro ht; rw [hdf] at ht; cases ht)
          | simp [remove_installation, unlinkShortcuts, h1, h2, h3, hdf,
              PerMode.get_set_same]
  · by_cases hdir : fs.installDirs.get mode = true <;>
      by_cases h1 : env.rmtreeOk = true <;>
      by_cases h2 : env.unlinkDesktopOk = true <;>
      by_cases h3 : env.unlinkAppsOk = true <;>
      simp [remove_installation, unlinkShortcuts, hdir, h1, h2, h3, List.getLast?]
  · intro m2 hm2
    by_cases hdir : fs.installDirs.get mode = true <;>
      by_cases h1 : env.rmtreeOk = true <;>
      by_cases h2 : env.unlinkDesktopOk = true <;>
      by_cases h3 : env.unlinkAppsOk = true <;>
      refine ⟨?_, ?_, ?_⟩ <;>
      simp [remove_installation, unlinkShortcuts, hdir, h1, h2, h3,
        PerMode.get_set_other _ _ _ _ hm2]
  · intro hdir hrm
    refine ⟨?_, ?_, ?_, ?_⟩ <;> simp [remove_installation, unlinkShortcuts, hdir, hrm]
  · intro h2
    by_cases hdir : fs.installDirs.get mode = true <;>
      by_cases h1 : env.rmtreeOk = true <;>
      refine ⟨?_, ?_, ?_⟩ <;>
      simp [remove_installation, unlinkShortcuts, hdir, h1, h2, PerMode.get_set_other]
  · intro h3
    by_cases hdir : fs.installDirs.get mode = true <;>
      by_cases h1 : env.rmtreeOk = true <;>
      by_cases h2 : env.unlinkDesktopOk = true <;>
      refine ⟨?_, ?_⟩ <;>
      simp [remove_installation, unlinkShortcuts, hdir, h1, h2, h3]

/-- Witness for the amended C9 statement: an error-free removal of an
existing Project+ installation runs the full deletion sequence ending in the
re-read and leaves the REX install directory in place. -/
theorem removal_behavior_w :
    (remove_installation ⟨true, true, true⟩
      ⟨⟨true, true⟩, ⟨true, true⟩, ⟨true, true⟩⟩ Mode.project_plus).2.1 =
      [RmEvent.rmtree .project_plus, RmEvent.unlinkDesktop .project_plus,
       RmEvent.unlinkApps .project_plus, RmEvent.reread]
    ∧ (remove_installation ⟨true, true, true⟩
        ⟨⟨true, true⟩, ⟨true, true⟩, ⟨true, true⟩⟩
        Mode.project_plus).1.installDirs.get Mode.rex = true := by
  have h := removal_behavior ⟨true, true, true⟩
    ⟨⟨true, true⟩, ⟨true, true⟩, ⟨true, true⟩⟩ Mode.project_plus
  refine ⟨(h.1 rfl rfl rfl).2.2.2.2.1 rfl, ?_⟩
  have h2 := (h.2.2.1 Mode.rex (by decide)).1
  simpa using h2

/-- C7 counterexample: from a reachable state (Project+ selected, update
available, button enabled by the version rule, nothing in flight), clicking
Download/Update spawns one worker; switching to REX and back re-enables the
button from the version comparison alone, and a second click spawns a second
worker for the SAME variant while the first is still in flight — the claimed
per-product in-progress flag does not exist. -/
theorem duplicate_start_cex :
    computeUpdateEnabled (uiStart.installed.get .project_plus)
        (uiStart.latest.get .project_plus) = true
    ∧ (uiRun uiStart [.clickUpdate]).inFlight.get .project_plus = 1
    ∧ (uiRun uiStart [.clickUpdate, .switchMode .rex, .switchMode .project_plus,
        .clickUpdate]).inFlight.get .project_plus = 2 := by
  exact ⟨by decide, by decide, by decide⟩

/-- C7 amended: the only duplicate-start protection is the transient
button disable: starting an operation leaves the button disabled, a click
while it is disabled is a complete no-op, and a click while enabled spawns
exactly one worker for the selected variant.  There is no per-product
in-progress flag or lock, and (per the counterexample) a mode switch
re-enables the trigger while a worker is still in flight. -/
theorem start_guard_behavior (s : UIState) :
    (uiStep s .clickUpdate).updateEnabled = false
    ∧ (s.updateEnabled = false → uiStep s .clickUpdate = s)
    ∧ (s.updateEnabled = true →
        (uiStep s .clickUpdate).inFlight.get s.game_mode =
          s.inFlight.get s.game_mode + 1) := by
  by_cases h : s.updateEnabled = true
  · refine ⟨by simp [uiStep, h], ?_, fun _ => by simp [uiStep, h, PerMode.get_set_same]⟩
    intro hf
    rw [h] at hf
    cases hf
  · have h2 : s.updateEnabled = false := by simpa using h
    exact ⟨by simp [uiStep, h2], fun _ => by simp [uiStep, h2], fun ht => absurd ht h⟩

/-- Witness for the amended C7 statement: with the button disabled, a click
changes nothing. -/
theorem start_guard_behavior_w :
    uiStep ⟨Mode.rex, false, ⟨none, none⟩, ⟨none, none⟩, ⟨0, 1⟩⟩ .clickUpdate =
      ⟨Mode.rex, false, ⟨none, none⟩, ⟨none, none⟩, ⟨0, 1⟩⟩ := by
  exact (start_guard_behavior ⟨Mode.rex, false, ⟨none, none⟩, ⟨none, none⟩,
    ⟨0, 1⟩⟩).2.1 rfl

/-- C1: for every install operation (either variant, any environment),
the version marker is written exactly when the download-and-extract
operation completes without raising — on success the marker holds the new
release tag, and on any raised error the marker is bit-for-bit whatever it
was before (absent stays absent, stale stays stale). -/
theorem marker_iff_success (mode : Mode) (env : NetEnv) (pp : Option Asset)
    (rx : Option (List Asset)) (tag dir : String) (st : InstallState) :
    ((download_and_extract mode env pp rx tag dir st).error = none →
      (download_and_extract mode env pp rx tag dir st).state.marker = some tag)
    ∧ ∀ e : PyError,
        (download_and_extract mode env pp rx tag dir st).error = some e →
        (download_and_extract mode env pp rx tag dir st).state.marker = st.marker := by
  have hm : (match mode with
      | Mode.project_plus => extract_project_plus env pp dir st
      | Mode.rex => extract_rex env rx dir st).state.marker = st.marker := by
    cases mode
    · exact extract_project_plus_marker env pp dir st
    · exact extract_rex_marker env rx dir st
  unfold download_and_extract
  dsimp only
  cases he : (match mode with
      | Mode.project_plus => extract_project_plus env pp dir st
      | Mode.rex => extract_rex env rx dir st).error with
  | none =>
    refine ⟨fun _ => rfl, ?_⟩
    intro e h
    exact nomatch h
  | some e2 =>
    refine ⟨fun h => (nomatch h), ?_⟩
    intro e _
    exact hm

/-- Witness for C1 at concrete inputs: a successful Project+ install writes
the tag, and a failing REX install (no classified parts) leaves a stale
marker untouched. -/
theorem marker_iff_success_w :
    (download_and_extract .project_plus envOk (some ⟨"Game.AppImage.zip", 1000⟩) none
      "v2.1" "ProjectPlus" ⟨none, []⟩).state.marker = some "v2.1"
    ∧ (download_and_extract .rex envOk none none "r1" "REX"
        ⟨some "r0", []⟩).state.marker = some "r0" := by
  constructor
  · exact (marker_iff_success .project_plus envOk (some ⟨"Game.AppImage.zip", 1000⟩)
      none "v2.1" "ProjectPlus" ⟨none, []⟩).1 (by decide)
  · exact (marker_iff_success .rex envOk none none "r1" "REX" ⟨some "r0", []⟩).2
      (.valueError "Could not find REX assets.") (by decide)

/-- C2 amended: when `7z` exits non-zero, the REX install raises an
error whose message carries the captured stderr, and no marker is written;
but the downloaded part files are NOT deleted on this path — they all remain
on disk, because the unlink loop sits after the `try`/`except` and is only
reached on success. -/
theorem rex_failure_behavior (env : NetEnv) (p : Asset) (rest : List Asset)
    (tag dir : String) (st : InstallState) (stderr : String)
    (hdl : ∀ a ∈ p :: rest, env.dlOk a.name = true)
    (hz : env.sevenZip = .error stderr) :
    (download_and_extract .rex env none (some (p :: rest)) tag dir st).error =
      some (.extractionError ("7z extraction failed: " ++ stderr))
    ∧ (download_and_extract .rex env none (some (p :: rest)) tag dir st).state.marker =
        st.marker
    ∧ (∀ a ∈ p :: rest,
        a.name ∈ (download_and_extract .rex env none (some (p :: rest)) tag dir
          st).state.tempFiles)
    ∧ strContains ("7z extraction failed: " ++ stderr) stderr = true := by
  have hdl2 := downloadRexParts_ok env (80 / ((p :: rest).length : ℚ)) (p :: rest) 0 st hdl
  have hrex : extract_rex env (some (p :: rest)) dir st =
      ⟨(downloadRexParts env (80 / ((p :: rest).length : ℚ)) 0 (p :: rest) st).1,
       (downloadRexParts env (80 / ((p :: rest).length : ℚ)) 0 (p :: rest) st).2.1 ++
         [.setProgress 85, .run7z p.name dir],
       some (.extractionError ("7z extraction failed: " ++ stderr))⟩ := by
    unfold extract_rex
    dsimp only
    rw [hdl2.1, hz]
  have hfull : download_and_extract .rex env none (some (p :: rest)) tag dir st =
      ⟨(downloadRexParts env (80 / ((p :: rest).length : ℚ)) 0 (p :: rest) st).1,
       (downloadRexParts env (80 / ((p :: rest).length : ℚ)) 0 (p :: rest) st).2.1 ++
         [.setProgress 85, .run7z p.name dir],
       some (.extractionError ("7z extraction failed: " ++ stderr))⟩ := by
    unfold download_and_extract
    dsimp only
    rw [hrex]
  refine ⟨?_, ?_, ?_, strContains_append_right "7z extraction failed: " stderr⟩
  · rw [hfull]
  · rw [hfull]
    exact downloadRexParts_marker env _ _ _ _
  · intro a ha
    rw [hfull]
    exact hdl2.2 a ha

/-- C2 counterexample: with one downloaded part and `7z` failing with
stderr `"disk full"`, the operation raises an `ExtractionError` carrying
`"disk full"` and writes no marker — but the part file is still on disk,
refuting the claim that part files are deleted on the failure path. -/
theorem rex_failure_cex :
    (download_and_extract .rex envDiskFull none (some [⟨"rex.zip.001", 5⟩]) "r1" "REX"
      ⟨none, []⟩).state.tempFiles = ["rex.zip.001"]
    ∧ (download_and_extract .rex envDiskFull none (some [⟨"rex.zip.001", 5⟩]) "r1" "REX"
        ⟨none, []⟩).state.tempFiles ≠ []
    ∧ (download_and_extract .rex envDiskFull none (some [⟨"rex.zip.001", 5⟩]) "r1" "REX"
        ⟨none, []⟩).error =
        some (.extractionError "7z extraction failed: disk full")
    ∧ (download_and_extract .rex envDiskFull none (some [⟨"rex.zip.001", 5⟩]) "r1" "REX"
        ⟨none, []⟩).state.marker = none := by
  exact ⟨by decide, by decide, by decide, by decide⟩

/-- Witness for the amended C2 statement at a concrete failing install. -/
theorem rex_failure_behavior_w :
    (download_and_extract .rex envDiskFull none (some [⟨"pack.zip.001", 9⟩]) "r2" "REX"
      ⟨none, []⟩).error = some (.extractionError "7z extraction failed: disk full")
    ∧ "pack.zip.001" ∈ (download_and_extract .rex envDiskFull none
        (some [⟨"pack.zip.001", 9⟩]) "r2" "REX" ⟨none, []⟩).state.tempFiles := by
  have h := rex_failure_behavior envDiskFull ⟨"pack.zip.001", 9⟩ [] "r2" "REX"
    ⟨none, []⟩ "disk full" (by decide) rfl
  exact ⟨h.1, h.2.2.1 ⟨"pack.zip.001", 9⟩ (by decide)⟩

/-- C4: a successful primary-variant install performs exactly: download
the primary archive with progress share 80 starting at 0 (all emitted
progress-bar values lying in the 0–80 range), set progress to 85, extract
the zip into the install directory, set progress to 100, delete the
downloaded archive, then write the marker with the release tag — after which
reading local state reports that tag as installed. -/
theorem primary_install_sequence (env : NetEnv) (a : Asset) (tag dir : String)
    (st : InstallState) (hdl : env.dlOk a.name = true) (hzip : env.zipOk a.name = true)
    (htag : pyStrip tag = tag) :
    (download_and_extract .project_plus env (some a) none tag dir st).events =
      [.download a.name 80 0, .setProgress 85, .extractZip a.name dir,
       .setProgress 100, .deleteFile a.name, .writeMarker tag]
    ∧ (download_and_extract .project_plus env (some a) none tag dir st).error = none
    ∧ (download_and_extract .project_plus env (some a) none tag dir st).state.marker =
        some tag
    ∧ (∀ imgs : List String,
        (readLocalState ⟨true,
          (download_and_extract .project_plus env (some a) none tag dir
            st).state.marker, imgs⟩).1 = some tag)
    ∧ (∀ (bd : String) (t0 : ℤ) (chunks : List Chunk) (total : Nat), 0 < total →
        (chunks.map Chunk.size).sum ≤ total →
        ∀ v ∈ progressValuesIn (download_asset bd a.name total 80 0 t0 chunks).2,
          0 ≤ v ∧ v ≤ 80) := by
  have hx : extract_project_plus env (some a) dir st =
      ⟨{ st with tempFiles := (addFile a.name st.tempFiles).erase a.name },
       [.download a.name 80 0, .setProgress 85, .extractZip a.name dir,
        .setProgress 100, .deleteFile a.name], none⟩ := by
    unfold extract_project_plus
    dsimp only
    rw [hdl, hzip]
    rfl
  have hfull : download_and_extract .project_plus env (some a) none tag dir st =
      ⟨{ marker := some tag,
         tempFiles := (addFile a.name st.tempFiles).erase a.name },
       [.download a.name 80 0, .setProgress 85, .extractZip a.name dir,
        .setProgress 100, .deleteFile a.name, .writeMarker tag], none⟩ := by
    unfold download_and_extract
    dsimp only
    rw [hx]
    rfl
  refine ⟨by rw [hfull], by rw [hfull], by rw [hfull], ?_, ?_⟩
  · intro imgs
    rw [hfull]
    simp [readLocalState, htag]
  · intro bd t0 chunks total htot hsum v hv
    refine dlRun_progress_range total htot chunks ⟨0, t0⟩ (by simpa using hsum) v ?_
    simpa [download_asset] using hv

/-- Witness for C4 at the spec's scenario: tag `v2.1`, a single
`Game.AppImage.zip` asset, everything succeeding; the exact event sequence
is produced, the final read reports `v2.1`, and a concrete download's
progress values all lie in 0–80. -/
theorem primary_install_sequence_w :
    (download_and_extract .project_plus envOk (some ⟨"Game.AppImage.zip", 1000⟩) none
      "v2.1" "ProjectPlus" ⟨none, []⟩).events =
      [.download "Game.AppImage.zip" 80 0, .setProgress 85,
       .extractZip "Game.AppImage.zip" "ProjectPlus", .setProgress 100,
       .deleteFile "Game.AppImage.zip", .writeMarker "v2.1"]
    ∧ (readLocalState ⟨true, (download_and_extract .project_plus envOk
        (some ⟨"Game.AppImage.zip", 1000⟩) none "v2.1" "ProjectPlus"
        ⟨none, []⟩).state.marker, []⟩).1 = some "v2.1"
    ∧ List.Forall (fun v => 0 ≤ v ∧ v ≤ 80)
        (progressValuesIn (download_asset "Applications" "Game.AppImage.zip" 1000 80 0 0
          [⟨1000, 600000⟩]).2) := by
  have h := primary_install_sequence envOk ⟨"Game.AppImage.zip", 1000⟩ "v2.1"
    "ProjectPlus" ⟨none, []⟩ rfl rfl (by decide)
  refine ⟨h.1, h.2.2.2.1 [], ?_⟩
  exact List.forall_iff_forall_mem.mpr (h.2.2.2.2 "Applications" 0 [⟨1000, 600000⟩]
    1000 (by decide) (by decide))

end PPlusUpdater
